import Mathlib

/-!
Verification of the x-terminal backend (Python) against its natural-language
specification.

Shallow embedding conventions:
* `datetime` instants are rational numbers of UTC seconds (`ℚ`);
* Python `int` is `ℤ`, list indices and lengths are `ℕ`;
* Python dicts keyed by strings are modelled as functions `String → α`
  (for the `defaultdict`-based stores) or association lists (for the
  per-tick `metrics` dict);
* Python `set` of strings is `Finset String`;
* Python's stable `sorted(..., key=k)` is `List.insertionSort` under the
  non-strict comparison of keys.  CPython's sort and `insertionSort` are
  both stable sorts, and a stable sort's output is determined by the key
  comparison, so the two agree on every input.

Sources embedded below (paths relative to the repository root):
* `backend/adapter/models.py` (`Tick`)
* `backend/aggregator/__init__.py` (`TickStore`, `Bar`, `BarGenerator`,
  `RESOLUTION_MAP`)
* `backend/adapter/grok/__init__.py` (`BarSummary`, `GrokAdapter`)
* `backend/adapter/grok/mocks.py` (`mock_bar_summary`)
* `backend/adapter/rate_limiter.py` (`RateLimiter._wait_sliding_window`)
* `backend/adapter/x/__init__.py` (`XAdapter.search_recent`)
* `backend/api/__init__.py` (`create_topic` id derivation)
-/

/-- Tick from `backend/adapter/models.py`: one observed post.  `timestamp`
is the UTC instant in seconds; `metrics` is the engagement dict. -/
structure Tick where
  id : String
  author : String
  text : String
  timestamp : ℚ
  metrics : List (String × ℤ)
  topic : String
deriving DecidableEq

/-- Python `tick.metrics.get(name, 0)`. -/
def Tick.metric (t : Tick) (name : String) : ℤ :=
  (t.metrics.lookup name).getD 0

/-- Comparison used by `sorted(ticks, key=lambda t: t.timestamp)`. -/
def tickLE (a b : Tick) : Prop :=
  a.timestamp ≤ b.timestamp

/-- Comparison used by `sorted(ticks, key=lambda t: t.timestamp, reverse=True)`.
CPython's stable sort with `reverse=True` keeps ties in original order,
which matches a stable sort under this flipped comparison. -/
def tickGE (a b : Tick) : Prop :=
  b.timestamp ≤ a.timestamp

instance : DecidableRel tickLE :=
  fun a b => inferInstanceAs (Decidable (a.timestamp ≤ b.timestamp))

instance : DecidableRel tickGE :=
  fun a b => inferInstanceAs (Decidable (b.timestamp ≤ a.timestamp))

instance : IsTotal Tick tickLE :=
  ⟨fun a b => le_total a.timestamp b.timestamp⟩

instance : IsTrans Tick tickLE :=
  ⟨fun _ _ _ h h2 => le_trans h h2⟩

instance : IsTotal Tick tickGE :=
  ⟨fun a b => le_total b.timestamp a.timestamp⟩

instance : IsTrans Tick tickGE :=
  ⟨fun _ _ _ h h2 => le_trans h2 h⟩

/-- Functional update of a string-keyed map, modelling assignment into a
Python (default)dict. -/
def updateMap {α : Type} (f : String → α) (k : String) (v : α) : String → α :=
  fun x => if x = k then v else f x

theorem updateMap_same {α : Type} (f : String → α) (k : String) (v : α) :
    updateMap f k v k = v := by
  simp [updateMap]

theorem updateMap_idem {α : Type} (f : String → α) (k : String) (v w : α) :
    updateMap (updateMap f k v) k w = updateMap f k w := by
  funext x
  simp only [updateMap]
  by_cases h : x = k <;> simp [h]

/-- State of `TickStore` (`backend/aggregator/__init__.py`).  `ticks` models
`self._ticks` (a `defaultdict(list)`), `tick_ids` models `self._tick_ids`
(a `defaultdict(set)` used for deduplication). -/
structure TickStore where
  max_ticks_per_topic : ℕ
  ticks : String → List Tick
  tick_ids : String → Finset String

/-- Fresh store, as built by `TickStore.__init__`. -/
def TickStore.empty (maxTicks : ℕ) : TickStore :=
  ⟨maxTicks, fun _ => [], fun _ => ∅⟩

/-- The `for tick in ticks:` loop body of `TickStore.add_ticks`: append each
tick whose id is not yet in the id set, recording it in the set and
counting it. -/
def addLoop : List Tick → List Tick → Finset String → ℕ →
    List Tick × Finset String × ℕ
  | [], stored, ids, added => (stored, ids, added)
  | t :: ts, stored, ids, added =>
    if t.id ∈ ids then addLoop ts stored ids added
    else addLoop ts (stored ++ [t]) (insert t.id ids) (added + 1)

/-- Pruning step of `TickStore.add_ticks` (aggregator lines 129-138): when
over the cap, keep the most recent `maxT` ticks (stable sort by timestamp,
newest first) and rebuild the id set from the kept list. -/
def pruneState (maxT : ℕ) (lst : List Tick) (ids : Finset String) :
    List Tick × Finset String :=
  if maxT < lst.length then
    ((lst.insertionSort tickGE).take maxT,
      (((lst.insertionSort tickGE).take maxT).map Tick.id).toFinset)
  else (lst, ids)

/-- `TickStore.add_ticks` (aggregator lines 111-140): deduplicating insert
followed by the pruning step. -/
def TickStore.add_ticks (s : TickStore) (topic : String) (new : List Tick) :
    TickStore × ℕ :=
  let r := addLoop new (s.ticks topic) (s.tick_ids topic) 0
  let pruned := pruneState s.max_ticks_per_topic r.1 r.2.1
  ({ s with ticks := updateMap s.ticks topic pruned.1,
            tick_ids := updateMap s.tick_ids topic pruned.2 }, r.2.2)

/-- Unfolding lemma for `add_ticks` without let bindings. -/
theorem add_ticks_def (s : TickStore) (topic : String) (new : List Tick) :
    s.add_ticks topic new =
      ({ s with
          ticks := updateMap s.ticks topic
            (pruneState s.max_ticks_per_topic
              (addLoop new (s.ticks topic) (s.tick_ids topic) 0).1
              (addLoop new (s.ticks topic) (s.tick_ids topic) 0).2.1).1,
          tick_ids := updateMap s.tick_ids topic
            (pruneState s.max_ticks_per_topic
              (addLoop new (s.ticks topic) (s.tick_ids topic) 0).1
              (addLoop new (s.ticks topic) (s.tick_ids topic) 0).2.1).2 },
        (addLoop new (s.ticks topic) (s.tick_ids topic) 0).2.2) := rfl

/-- The pruning step is the identity while the cap is respected. -/
theorem pruneState_of_le (maxT : ℕ) (lst : List Tick) (ids : Finset String)
    (h : lst.length ≤ maxT) : pruneState maxT lst ids = (lst, ids) := by
  unfold pruneState
  rw [if_neg (by omega)]

/-- Time-range filter of `TickStore.get_ticks`: keep a tick unless a given
`start` exceeds its timestamp or a given `end` is at or below it. -/
def inWindow (tstart tstop : Option ℚ) (t : Tick) : Bool :=
  (match tstart with
   | none => true
   | some a => decide (a ≤ t.timestamp)) &&
  (match tstop with
   | none => true
   | some b => decide (t.timestamp < b))

/-- `TickStore.get_ticks` (aggregator lines 142-171): optionally filter by
the half-open window, then `sorted(ticks, key=lambda t: t.timestamp)`.
`tstop` plays the role of the Python parameter `end`. -/
def TickStore.get_ticks (s : TickStore) (topic : String)
    (tstart tstop : Option ℚ) : List Tick :=
  let ticks := s.ticks topic
  let ticks :=
    if tstart.isSome || tstop.isSome then ticks.filter (inWindow tstart tstop)
    else ticks
  ticks.insertionSort tickLE

/-- `TickStore.get_tick_count`. -/
def TickStore.get_tick_count (s : TickStore) (topic : String) : ℕ :=
  (s.ticks topic).length

/-- `TickStore.clear_topic` (aggregator lines 186-191): deleting the keys of
the defaultdicts makes subsequent reads yield the defaults. -/
def TickStore.clear_topic (s : TickStore) (topic : String) : TickStore :=
  { s with ticks := updateMap s.ticks topic [],
           tick_ids := updateMap s.tick_ids topic ∅ }

/-- BarSummary from `backend/adapter/grok/__init__.py` (lines 68-75).  Note
the class has no `highlight_posts` field. -/
structure BarSummary where
  summary : String
  key_themes : List String
  sentiment : String
  post_count : ℕ
  engagement_level : String
deriving DecidableEq

/-- Model of one `random.Random(seed)` generator: the n-th `sample`
and `choice` draws are deterministic functions of the draw index and the
arguments (CPython's Mersenne Twister is deterministic given the seed). -/
structure RngModel where
  sampleDraw : ℕ → List String → ℕ → List String
  choiceDraw : ℕ → List String → String

/-- Environment abstracting `GrokAdapter._rng`: a deterministic generator
per seed string (Python seeds with `abs(hash(seed_source)) % 2**32`). -/
structure GrokEnv where
  rng : String → RngModel

/-- Character-list prefix test (helper for the substring test below). -/
def charsStartWith : List Char → List Char → Bool
  | _, [] => true
  | [], _ :: _ => false
  | h :: hs, n :: ns => h = n && charsStartWith hs ns

/-- Character-list substring test (helper for the substring test below). -/
def charsContain (hay needle : List Char) : Bool :=
  if charsStartWith hay needle then true
  else
    match hay with
    | [] => false
    | _ :: hs => charsContain hs needle

/-- Substring test, modelling Python's `needle in hay`. -/
def strContains (hay needle : String) : Bool :=
  charsContain hay.toList needle.toList

/-- Python `str.lower()`, character-wise. -/
def lowerStr (s : String) : String :=
  ⟨s.data.map Char.toLower⟩

/-- Seed string `f"{topic}_{start_time}_{end_time}"` used by
`_fallback_bar_summary`; the exact datetime rendering only selects the rng
stream, so rendering `ℚ` via `toString` is adequate. -/
def fallbackSeed (topic : String) (tstart tstop : ℚ) : String :=
  topic ++ "_" ++ toString tstart ++ "_" ++ toString tstop

/-- GrokAdapter._fallback_bar_summary (grok/__init__.py lines 351-384):
a locally synthesized summary used when the API is unavailable. -/
def fallback_bar_summary (env : GrokEnv) (topic : String) (posts : List Tick)
    (tstart tstop : ℚ) : BarSummary :=
  let gen := env.rng (fallbackSeed topic tstart tstop)
  let post_count := posts.length
  if post_count = 0 then
    ⟨"No posts in this time window", [], "neutral", 0, "low"⟩
  else
    let base_themes :=
      if strContains (lowerStr topic) "tech" || strContains (lowerStr topic) "ai" then
        ["discussion", "updates", "reactions", "analysis",
         "innovation", "development", "trends"]
      else if strContains (lowerStr topic) "finance" || strContains topic "$" then
        ["discussion", "updates", "reactions", "analysis",
         "market", "investment", "analysis"]
      else ["discussion", "updates", "reactions", "analysis"]
    let themes := gen.sampleDraw 0 base_themes (min 3 base_themes.length)
    let sentiment := gen.choiceDraw 1 ["positive", "negative", "neutral", "mixed"]
    let engagement := gen.choiceDraw 2 ["low", "medium", "high"]
    let summaryText := toString post_count ++ " posts about " ++ topic ++
      " with " ++ sentiment ++ " sentiment and " ++ engagement ++ " engagement."
    ⟨summaryText, themes, sentiment, post_count, engagement⟩

/-- GrokAdapter state relevant to `summarize_bar`.  `client` is `none` when
no API client is configured (`Client and self.api_key` falsy); otherwise it
carries the outcome of a structured chat call: `some none` when the call
raises or the payload is not a well-typed `BarSummary`, `some (some p)` on
success. -/
structure GrokAdapter where
  env : GrokEnv
  client : Option (Option BarSummary)

/-- GrokAdapter._structured_call specialised to the `BarSummary` schema
(grok/__init__.py lines 111-136): returns `none` without a client, and
`none` on any exception (the `except` branch), else the parsed payload. -/
def GrokAdapter.structuredCallBar (a : GrokAdapter) : Option BarSummary :=
  match a.client with
  | none => none
  | some outcome => outcome

/-- GrokAdapter.summarize_bar (grok/__init__.py lines 192-235).  On an empty
post list a canned summary is returned; on success the payload's
`post_count` is overwritten with the observed count; otherwise the local
fallback is returned. -/
def GrokAdapter.summarize_bar (a : GrokAdapter) (topic : String)
    (posts : List Tick) (tstart tstop : ℚ) : BarSummary :=
  if posts.isEmpty then
    ⟨"No posts in this time window", [], "neutral", 0, "low"⟩
  else
    match a.structuredCallBar with
    | some payload => { payload with post_count := posts.length }
    | none => fallback_bar_summary a.env topic posts tstart tstop

/-- Bar from `backend/aggregator/__init__.py` (lines 50-71).  `stop` is the
Python field `end` (a Lean keyword). -/
structure Bar where
  topic : String
  resolution : String
  start : ℚ
  stop : ℚ
  post_count : ℕ
  total_likes : ℤ
  total_retweets : ℤ
  total_replies : ℤ
  total_quotes : ℤ
  sample_post_ids : List String
  summary : Option BarSummary

/-- RESOLUTION_MAP from the aggregator module (durations in seconds, held
in `ℚ` because they are compared against instants). -/
def RESOLUTION_MAP : List (String × ℚ) :=
  [("15s", 15), ("30s", 30), ("1m", 60), ("5m", 300),
   ("15m", 900), ("30m", 1800), ("1h", 3600)]

/-- BarGenerator.generate_bar (aggregator lines 212-271).  The summary
attachment sits in a `try/except` in the source (and the call site passes a
`ticks=` keyword the callee does not accept, so at runtime the exception
path leaves `summary = None`); the claims verified here do not depend on
the summary field, which we model as the successful call. -/
def generate_bar (a : GrokAdapter) (s : TickStore) (topic : String)
    (tstart tstop : ℚ) (resolution : String) (generate_summary : Bool) : Bar :=
  let ticks := s.get_ticks topic (some tstart) (some tstop)
  { topic := topic
    resolution := resolution
    start := tstart
    stop := tstop
    post_count := ticks.length
    total_likes := (ticks.map (fun t => t.metric "like_count")).sum
    total_retweets := (ticks.map (fun t => t.metric "retweet_count")).sum
    total_replies := (ticks.map (fun t => t.metric "reply_count")).sum
    total_quotes := (ticks.map (fun t => t.metric "quote_count")).sum
    sample_post_ids := (ticks.take 5).map Tick.id
    summary :=
      if generate_summary && !ticks.isEmpty then
        some (a.summarize_bar topic ticks tstart tstop)
      else none }

/-- Loop body of `BarGenerator.generate_bars`: emit `limit` bars walking
backward one resolution-width at a time. -/
def generateBarsGo (a : GrokAdapter) (s : TickStore) (topic resolution : String)
    (r : ℚ) (flag : Bool) : ℕ → ℚ → List Bar
  | 0, _ => []
  | n + 1, barEnd =>
    generate_bar a s topic (barEnd - r) barEnd resolution flag ::
      generateBarsGo a s topic resolution r flag n (barEnd - r)

/-- BarGenerator.generate_bars (aggregator lines 273-325).  `none` models
the `ValueError` on an unsupported resolution.  `end_time` is the caller's
bound (the source defaults it to `datetime.now(timezone.utc)`); it is
floored to the resolution boundary via `int(ts // r) * r`, which on
nonnegative and negative instants alike is `⌊ts / r⌋ * r`. -/
def generate_bars (a : GrokAdapter) (s : TickStore) (topic resolution : String)
    (limit : ℕ) (flag : Bool) (end_time : ℚ) : Option (List Bar) :=
  match RESOLUTION_MAP.lookup resolution with
  | none => none
  | some r =>
    let barEnd : ℚ := ((⌊end_time / r⌋ : ℤ) : ℚ) * r
    some (generateBarsGo a s topic resolution r flag limit barEnd)

/-- Summary produced by `mock_bar_summary` in `backend/adapter/grok/mocks.py`.
The source passes a `highlight_posts=` keyword to the `BarSummary`
constructor; pydantic ignores the unknown field, but the observable
selection rule lives in this value, so the model keeps the field. -/
structure MockBarSummary where
  summary : String
  key_themes : List String
  sentiment : String
  post_count : ℕ
  engagement_level : String
  highlight_posts : Option (List String)
deriving DecidableEq

/-- mock_bar_summary (mocks.py lines 81-118).  Highlight posts are simply
the first two tick ids in the order the ticks are supplied
(`[tick.id for tick in ticks[:2]]`). -/
def mock_bar_summary (env : GrokEnv) (topic : String) (ticks : List Tick)
    (tstart tstop : ℚ) : MockBarSummary :=
  let gen := env.rng (fallbackSeed topic tstart tstop)
  let post_count := ticks.length
  if post_count = 0 then
    ⟨"No posts in this time window", [], "neutral", 0, "low", none⟩
  else
    let highlight_posts :=
      if ticks.isEmpty then none else some ((ticks.take 2).map Tick.id)
    let base_themes :=
      if strContains (lowerStr topic) "tech" || strContains (lowerStr topic) "ai" then
        ["discussion", "updates", "reactions", "analysis",
         "innovation", "development", "trends"]
      else if strContains (lowerStr topic) "finance" || strContains topic "$" then
        ["discussion", "updates", "reactions", "analysis",
         "market", "investment", "analysis"]
      else ["discussion", "updates", "reactions", "analysis"]
    let themes := gen.sampleDraw 0 base_themes (min 3 base_themes.length)
    let sentiment := gen.choiceDraw 1 ["positive", "negative", "neutral", "mixed"]
    let engagement := gen.choiceDraw 2 ["low", "medium", "high"]
    let summaryText := toString post_count ++ " posts about " ++ topic ++
      " with " ++ sentiment ++ " sentiment and " ++ engagement ++ " engagement."
    ⟨summaryText, themes, sentiment, post_count, engagement, highlight_posts⟩

/-- Engagement score stated by the specification (glossary):
`2·like_count + 3·retweet_count + 4·reply_count + 2·quote_count`.
Modelled from the spec: no code under `src/` computes this. -/
def engagement_score (t : Tick) : ℤ :=
  2 * t.metric "like_count" + 3 * t.metric "retweet_count" +
  4 * t.metric "reply_count" + 2 * t.metric "quote_count"

/-- Ordering `(engagement desc, timestamp desc)` claimed by the spec for
highlight selection. -/
def highlightLE (a b : Tick) : Prop :=
  engagement_score b < engagement_score a ∨
    (engagement_score b = engagement_score a ∧ b.timestamp ≤ a.timestamp)

instance : DecidableRel highlightLE :=
  fun a b =>
    inferInstanceAs (Decidable (engagement_score b < engagement_score a ∨
      (engagement_score b = engagement_score a ∧ b.timestamp ≤ a.timestamp)))

/-- Highlight selection rule as the claim states it (modelled from the
spec): sort by `(engagement desc, timestamp desc)` and take the first two
ids. -/
def claimed_highlight_posts (ticks : List Tick) : List String :=
  ((ticks.insertionSort highlightLE).take 2).map Tick.id

/-- Observable outcome of `XAdapter.search_recent` up to the point where an
upstream HTTP request would be issued (x/__init__.py lines 240-399): either
the unconfigured-adapter exception, the early empty return for a too-recent
explicit window, or an HTTP request carrying the computed parameters. -/
inductive SearchOutcome where
  | authError : SearchOutcome
  | emptyTooRecent : SearchOutcome
  | httpRequest (tstart tstop : ℚ) (query : String) (max_results : ℕ) :
      SearchOutcome
deriving DecidableEq

/-- Query rewriting in `search_recent`: append `-is:retweet` when the
lowercased query does not already contain it. -/
def buildQuery (query : String) : String :=
  if strContains (lowerStr query) "-is:retweet" then query
  else query ++ " -is:retweet"

/-- XAdapter.search_recent control flow before any network I/O
(lines 268-296).  `now` is `datetime.now(timezone.utc)`; when both explicit
bounds are supplied, an `end_time` later than `now - 12` (the
12-second buffer in line 282) yields an empty result without contacting
upstream; otherwise the request is issued with the given bounds.  Without
explicit bounds `_get_time_bounds` uses a 20-second buffer. -/
def search_recent (configured : Bool) (now : ℚ) (query : String)
    (minutes : ℕ) (max_results : ℕ)
    (start_time end_time : Option ℚ) : SearchOutcome :=
  if !configured then .authError
  else
    let mr := max 10 (min 100 max_results)
    match start_time, end_time with
    | some st, some en =>
      let min_allowed_end := now - 12
      if min_allowed_end < en then .emptyTooRecent
      else .httpRequest st en (buildQuery query) mr
    | _, _ =>
      let safe_end := now - 20
      .httpRequest (safe_end - 60 * minutes) safe_end (buildQuery query) mr

/-- Topic id derivation in `create_topic` (`backend/api/__init__.py`
line 276): `request.label.lower().replace("$", "").replace(" ", "_")`,
expressed character-wise (single-character patterns make `str.replace`
a filter resp. a map over the characters). -/
def create_topic_id (label : String) : String :=
  ⟨((label.data.map Char.toLower).filter (fun c => c ≠ '$')).map
      (fun c => if c = ' ' then '_' else c)⟩

/-- Topic id rule as the claim states it (modelled from the spec): the
lowercased label with every `'$'` character and all whitespace removed. -/
def claimed_topic_id (label : String) : String :=
  ⟨(label.data.map Char.toLower).filter
      (fun c => !(c = '$' || c.isWhitespace))⟩

/-- Amended topic id rule, written independently as a single fold: lowercase
each character, drop `'$'`, and turn each space into an underscore. -/
def amended_topic_id (label : String) : String :=
  ⟨label.data.foldr
      (fun c acc =>
        if c.toLower = '$' then acc
        else (if c.toLower = ' ' then '_' else c.toLower) :: acc) []⟩

/-- One call of `RateLimiter._wait_sliding_window`
(rate_limiter.py lines 84-107) for a category configured with
`requests_per_window = n` and `window_seconds = w`, arriving at `now` with
recorded grant timestamps `st`: prune timestamps outside the window; when
at the limit, sleep until the oldest pruned timestamp leaves the window and
prune again; finally record the grant.  Returns the grant time and the new
timestamp list.  (`min []` would raise in Python; that branch is reachable
only for `n = 0`.) -/
def slidingStep (n : ℕ) (w : ℚ) (now : ℚ) (st : List ℚ) : ℚ × List ℚ :=
  let window_times := st.filter (fun t => now - t < w)
  if n ≤ window_times.length then
    match window_times.min? with
    | none => (now, window_times ++ [now])
    | some oldest =>
      let wait_time := w - (now - oldest)
      if 0 < wait_time then
        let now2 := now + wait_time
        let pruned := window_times.filter (fun t => now2 - t < w)
        (now2, pruned ++ [now2])
      else (now, window_times ++ [now])
  else (now, window_times ++ [now])

/-- Sequential trace of `wait_if_needed` calls on one sliding-window
category.  `reqs` lists the instants at which the callers try to acquire;
a call cannot begin before the previous one was granted (the limiter blocks
the caller), so each call runs at `max request clock` where `clock` is the
previous grant.  Returns the list of grant times. -/
def slidingRun (n : ℕ) (w : ℚ) : List ℚ → ℚ → List ℚ → List ℚ
  | _, _, [] => []
  | st, clock, r :: rs =>
    let now := max r clock
    let g := slidingStep n w now st
    g.1 :: slidingRun n w g.2 g.1 rs

/-- Concrete fixtures used by the concrete instances below. -/
def tickIdB : Tick := ⟨"b", "user", "text", 0, [], "x"⟩

/-- Concrete tick whose id precedes `tickIdB`'s. -/
def tickIdA : Tick := ⟨"a", "user", "text", 0, [], "x"⟩

/-- Concrete tick at instant 1. -/
def tickOne : Tick := ⟨"one", "user", "text", 1, [], "x"⟩

/-- Concrete tick at instant 2. -/
def tickTwo : Tick := ⟨"two", "user", "text", 2, [], "x"⟩

/-- Concrete tick with 10 likes at 12:00:30 (seconds within the bar). -/
def tickEarly : Tick := ⟨"early", "user", "text", 30, [("like_count", 10)], "x"⟩

/-- Concrete tick with 10 likes at 12:00:45, tied on engagement with
`tickEarly`. -/
def tickLate : Tick := ⟨"late", "user", "text", 45, [("like_count", 10)], "x"⟩

/-- Concrete rng model (the values drawn never matter to the claims). -/
def trivialRng : RngModel := ⟨fun _ pop _ => pop, fun _ l => l.headD ""⟩

/-- Concrete Grok environment built from `trivialRng`. -/
def trivialGrokEnv : GrokEnv := ⟨fun _ => trivialRng⟩

/-- A GrokAdapter without an API client (`Client and self.api_key` falsy). -/
def noClientAdapter : GrokAdapter := ⟨trivialGrokEnv, none⟩

/-- C3 counterexample: with no client configured and a non-empty post list,
`summarize_bar` returns the locally synthesized `_fallback_bar_summary`
value even though the structured call produced nothing — the caller
receives fallback data instead of a typed error, contradicting the claim
that no fallback is injected. -/
theorem C3_counterexample_fallback_injected :
    GrokAdapter.structuredCallBar noClientAdapter = none ∧
    noClientAdapter.summarize_bar "ai" [tickEarly] 0 60 =
      fallback_bar_summary trivialGrokEnv "ai" [tickEarly] 0 60 :=
  ⟨rfl, rfl⟩

/-- C3 amended: whenever the structured LLM call does not succeed (no
client, exception, or ill-typed payload) and the post list is non-empty,
`GrokAdapter.summarize_bar` returns the deterministic local fallback
summary; no error reaches the caller. -/
theorem C3_summarize_bar_fallback_on_failure (a : GrokAdapter) (topic : String)
    (posts : List Tick) (tstart tstop : ℚ)
    (hne : posts ≠ []) (hfail : a.structuredCallBar = none) :
    a.summarize_bar topic posts tstart tstop =
      fallback_bar_summary a.env topic posts tstart tstop := by
  unfold GrokAdapter.summarize_bar
  rw [hfail]
  simp [hne]

/-- C3 witness: the amended theorem applied at a concrete adapter and post
list. -/
theorem C3_summarize_bar_fallback_on_failure_witness :
    ([tickEarly] : List Tick) ≠ [] ∧
    GrokAdapter.structuredCallBar noClientAdapter = none ∧
    noClientAdapter.summarize_bar "tsla" [tickEarly] 0 60 =
      fallback_bar_summary noClientAdapter.env "tsla" [tickEarly] 0 60 :=
  ⟨by decide, rfl,
    C3_summarize_bar_fallback_on_failure noClientAdapter "tsla" [tickEarly] 0 60
      (by decide) rfl⟩

/-- C7 counterexample: the code's dead-band buffer is 12 seconds, not the
claimed 15.  With `now = 100` an explicit `end = 87` lies inside the
claimed 15-second dead-band (`100 - 15 < 87`), yet `search_recent` issues
the upstream HTTP request instead of returning empty. -/
theorem C7_counterexample_buffer_is_not_15 :
    search_recent true 100 "q" 10 100 (some 0) (some 87) =
      SearchOutcome.httpRequest 0 87 "q -is:retweet" 100 ∧
    (100 : ℚ) - 15 < 87 := by
  constructor
  · simp only [search_recent]
    norm_num
    decide
  · norm_num

/-- C7 amended: when explicit bounds are supplied and the requested
`end_time` is later than 12 seconds before now (the source's buffer at
x/__init__.py line 282), `search_recent` returns the empty result without
issuing an upstream HTTP request. -/
theorem C7_search_recent_deadband (now query : _) (minutes mr : ℕ)
    (st en : ℚ) (h : now - 12 < en) :
    search_recent true now query minutes mr (some st) (some en) =
      SearchOutcome.emptyTooRecent := by
  simp [search_recent, h]

/-- C7 witness: the amended theorem applied at `now = 100`, `end = 89`. -/
theorem C7_search_recent_deadband_witness :
    (100 : ℚ) - 12 < 89 ∧
    search_recent true 100 "q" 10 100 (some 0) (some 89) =
      SearchOutcome.emptyTooRecent :=
  ⟨by norm_num, C7_search_recent_deadband 100 "q" 10 100 0 89 (by norm_num)⟩

/-- C8 counterexample: two ticks tied on engagement (10 likes each) at
12:00:30 and 12:00:45, supplied in ascending time order.  The claimed
`(engagement desc, timestamp desc)` rule would list the later tick first,
but `mock_bar_summary` simply takes the first two tick ids as supplied. -/
theorem C8_counterexample_highlights_not_sorted :
    (mock_bar_summary trivialGrokEnv "tsla" [tickEarly, tickLate] 0 60).highlight_posts =
      some ["early", "late"] ∧
    claimed_highlight_posts [tickEarly, tickLate] = ["late", "early"] ∧
    some ["early", "late"] ≠ some [tickLate.id, tickEarly.id] := by
  refine ⟨by decide, by decide, by decide⟩

/-- C8 amended: whenever the mock bar summary carries highlight posts, they
are the ids of the first two ticks in the order the ticks were supplied; no
engagement-weighted sorting is performed. -/
theorem C8_mock_highlights_first_two (env : GrokEnv) (topic : String)
    (ticks : List Tick) (tstart tstop : ℚ) (h : ticks ≠ []) :
    (mock_bar_summary env topic ticks tstart tstop).highlight_posts =
      some ((ticks.take 2).map Tick.id) := by
  unfold mock_bar_summary
  simp [h]

/-- C8 witness: the amended theorem applied at the two tied ticks. -/
theorem C8_mock_highlights_first_two_witness :
    ([tickEarly, tickLate] : List Tick) ≠ [] ∧
    (mock_bar_summary trivialGrokEnv "tsla" [tickEarly, tickLate] 0 60).highlight_posts =
      some (([tickEarly, tickLate].take 2).map Tick.id) :=
  ⟨by decide,
    C8_mock_highlights_first_two trivialGrokEnv "tsla" [tickEarly, tickLate] 0 60
      (by decide)⟩

/-- C9 counterexample: for the label `"Foo Bar"` the code derives
`"foo_bar"` (space becomes an underscore) while the claimed rule
(whitespace removed) yields `"foobar"`. -/
theorem C9_counterexample_space_not_removed :
    create_topic_id "Foo Bar" = "foo_bar" ∧
    claimed_topic_id "Foo Bar" = "foobar" ∧
    create_topic_id "Foo Bar" ≠ claimed_topic_id "Foo Bar" := by
  refine ⟨by decide, by decide, by decide⟩

/-- C9 amended: the derived topic id equals the lowercased label with every
`'$'` removed and each space character replaced by an underscore (other
whitespace is kept). -/
theorem C9_create_topic_id_amended (label : String) :
    create_topic_id label = amended_topic_id label := by
  have key : ∀ l : List Char,
      ((l.map Char.toLower).filter (fun c => c ≠ '$')).map
          (fun c => if c = ' ' then '_' else c) =
        l.foldr (fun c acc =>
          if c.toLower = '$' then acc
          else (if c.toLower = ' ' then '_' else c.toLower) :: acc) [] := by
    intro l
    induction l with
    | nil => rfl
    | cons c cs ih =>
      by_cases h : c.toLower = '$'
      · simpa [h, decide_not] using ih
      · simpa [h, decide_not] using ih
  exact congrArg String.mk (key label.data)

/-- Normal form of `get_ticks`: the `start or end` guard never changes the
result, because with both bounds absent the window filter keeps
everything. -/
theorem get_ticks_eq (s : TickStore) (topic : String) (tstart tstop : Option ℚ) :
    s.get_ticks topic tstart tstop =
      ((s.ticks topic).filter (inWindow tstart tstop)).insertionSort tickLE := by
  unfold TickStore.get_ticks
  by_cases h : tstart.isSome || tstop.isSome
  · simp [h]
  · have ha : tstart = none := by
      cases tstart <;> simp_all
    have hb : tstop = none := by
      cases tstop <;> simp_all
    subst ha hb
    rw [List.filter_eq_self.mpr (fun a _ => by simp [inWindow])]
    simp

/-- Output of `get_ticks` is a permutation of the in-window stored ticks. -/
theorem get_ticks_perm (s : TickStore) (topic : String) (tstart tstop : Option ℚ) :
    List.Perm (s.get_ticks topic tstart tstop)
      ((s.ticks topic).filter (inWindow tstart tstop)) := by
  rw [get_ticks_eq]
  exact List.perm_insertionSort tickLE _

/-- Output of `get_ticks` is weakly increasing in timestamp. -/
theorem get_ticks_sorted (s : TickStore) (topic : String) (tstart tstop : Option ℚ) :
    (s.get_ticks topic tstart tstop).Pairwise
      (fun x y => x.timestamp ≤ y.timestamp) := by
  rw [get_ticks_eq]
  exact List.sorted_insertionSort tickLE _

/-- Stability of `get_ticks`: among ticks sharing one timestamp the output
preserves the stored order exactly. -/
theorem get_ticks_stable (s : TickStore) (topic : String)
    (tstart tstop : Option ℚ) (c : ℚ) :
    (s.get_ticks topic tstart tstop).filter (fun t => decide (t.timestamp = c)) =
      ((s.ticks topic).filter (inWindow tstart tstop)).filter
        (fun t => decide (t.timestamp = c)) := by
  rw [get_ticks_eq]
  set L := (s.ticks topic).filter (inWindow tstart tstop) with hL
  set p : Tick → Bool := fun t => decide (t.timestamp = c) with hp
  have hmem : ∀ t ∈ L.filter p, t.timestamp = c := by
    intro t ht
    have := (List.mem_filter.mp ht).2
    simpa [hp] using this
  have hpair : (L.filter p).Pairwise tickLE := by
    apply List.pairwise_of_forall_mem_list
    intro x hx y hy
    show x.timestamp ≤ y.timestamp
    rw [hmem x hx, hmem y hy]
  have hsub : List.Sublist (L.filter p) (L.insertionSort tickLE) :=
    List.sublist_insertionSort hpair (List.filter_sublist L)
  have hself : (L.filter p).filter p = L.filter p := by
    rw [List.filter_eq_self]
    intro t ht
    simp [hp, hmem t ht]
  have hsub2 : List.Sublist (L.filter p) ((L.insertionSort tickLE).filter p) := by
    have := hsub.filter p
    rwa [hself] at this
  have hperm : List.Perm ((L.insertionSort tickLE).filter p) (L.filter p) :=
    (List.perm_insertionSort tickLE L).filter p
  exact (hsub2.eq_of_length hperm.length_eq.symm).symm

/-- C6 counterexample: two ticks with equal timestamps whose stored order
is the reverse of their id order come back from `get_ticks` in stored
order, so ties are not broken by id; the claimed id tie-break would list
`tickIdA` first. -/
theorem C6_counterexample_no_id_tiebreak :
    (((TickStore.empty 10).add_ticks "x" [tickIdB, tickIdA]).1.get_ticks
        "x" none none) = [tickIdB, tickIdA] ∧
    tickIdA.timestamp = tickIdB.timestamp ∧
    tickIdA.id.data < tickIdB.id.data ∧
    ([tickIdB, tickIdA] : List Tick) ≠ [tickIdA, tickIdB] := by
  refine ⟨by decide, by decide, by decide, by decide⟩

/-- C6 amended: `get_ticks` returns exactly the stored ticks whose
timestamp lies in the half-open interval (a permutation of the window
filter), sorted ascending by timestamp, with ties between equal timestamps
preserved in stored insertion order (stability) rather than broken by id. -/
theorem C6_get_ticks_characterization (s : TickStore) (topic : String)
    (tstart tstop : Option ℚ) :
    (s.get_ticks topic tstart tstop).Perm
        ((s.ticks topic).filter (inWindow tstart tstop)) ∧
    (s.get_ticks topic tstart tstop).Pairwise
        (fun x y => x.timestamp ≤ y.timestamp) ∧
    ∀ c : ℚ,
      (s.get_ticks topic tstart tstop).filter (fun t => decide (t.timestamp = c)) =
        ((s.ticks topic).filter (inWindow tstart tstop)).filter
          (fun t => decide (t.timestamp = c)) :=
  ⟨get_ticks_perm s topic tstart tstop, get_ticks_sorted s topic tstart tstop,
    get_ticks_stable s topic tstart tstop⟩

/-- With both bounds present the window filter is exactly the half-open
interval membership test. -/
theorem inWindow_some_some (a b : ℚ) (t : Tick) :
    inWindow (some a) (some b) t = decide (a ≤ t.timestamp ∧ t.timestamp < b) := by
  simp [inWindow]

/-- C1: the bar built by `generate_bar` counts exactly the stored ticks in
the half-open window `[start, stop)` (one with timestamp equal to `stop` is
excluded by `<`), its four engagement totals are the field-wise sums over
exactly those ticks, and its sample ids are the first five tick ids of an
ascending-timestamp arrangement of those ticks. -/
theorem C1_generate_bar_metrics (a : GrokAdapter) (s : TickStore)
    (topic : String) (tstart tstop : ℚ) (res : String) (flag : Bool) :
    (generate_bar a s topic tstart tstop res flag).post_count =
      ((s.ticks topic).filter
        (fun t => decide (tstart ≤ t.timestamp ∧ t.timestamp < tstop))).length ∧
    (generate_bar a s topic tstart tstop res flag).total_likes =
      (((s.ticks topic).filter
        (fun t => decide (tstart ≤ t.timestamp ∧ t.timestamp < tstop))).map
          (fun t => t.metric "like_count")).sum ∧
    (generate_bar a s topic tstart tstop res flag).total_retweets =
      (((s.ticks topic).filter
        (fun t => decide (tstart ≤ t.timestamp ∧ t.timestamp < tstop))).map
          (fun t => t.metric "retweet_count")).sum ∧
    (generate_bar a s topic tstart tstop res flag).total_replies =
      (((s.ticks topic).filter
        (fun t => decide (tstart ≤ t.timestamp ∧ t.timestamp < tstop))).map
          (fun t => t.metric "reply_count")).sum ∧
    (generate_bar a s topic tstart tstop res flag).total_quotes =
      (((s.ticks topic).filter
        (fun t => decide (tstart ≤ t.timestamp ∧ t.timestamp < tstop))).map
          (fun t => t.metric "quote_count")).sum ∧
    ∃ l : List Tick,
      List.Perm l ((s.ticks topic).filter
        (fun t => decide (tstart ≤ t.timestamp ∧ t.timestamp < tstop))) ∧
      l.Pairwise (fun x y => x.timestamp ≤ y.timestamp) ∧
      (generate_bar a s topic tstart tstop res flag).sample_post_ids =
        (l.take 5).map Tick.id := by
  have hfil : (s.ticks topic).filter (inWindow (some tstart) (some tstop)) =
      (s.ticks topic).filter
        (fun t => decide (tstart ≤ t.timestamp ∧ t.timestamp < tstop)) :=
    List.filter_congr (fun t _ => inWindow_some_some tstart tstop t)
  have hperm : List.Perm (s.get_ticks topic (some tstart) (some tstop))
      ((s.ticks topic).filter
        (fun t => decide (tstart ≤ t.timestamp ∧ t.timestamp < tstop))) := by
    rw [← hfil]
    exact get_ticks_perm s topic (some tstart) (some tstop)
  refine ⟨?_, ?_, ?_, ?_, ?_, ?_⟩
  · exact hperm.length_eq
  · exact (hperm.map (fun t => t.metric "like_count")).sum_eq
  · exact (hperm.map (fun t => t.metric "retweet_count")).sum_eq
  · exact (hperm.map (fun t => t.metric "reply_count")).sum_eq
  · exact (hperm.map (fun t => t.metric "quote_count")).sum_eq
  · exact ⟨s.get_ticks topic (some tstart) (some tstop), hperm,
      get_ticks_sorted s topic (some tstart) (some tstop), rfl⟩

/-- Ids accumulated by the add loop only grow. -/
theorem addLoop_ids_mono (l : List Tick) (stored : List Tick)
    (ids : Finset String) (n : ℕ) {x : String} (hx : x ∈ ids) :
    x ∈ (addLoop l stored ids n).2.1 := by
  induction l generalizing stored ids n with
  | nil => exact hx
  | cons t ts ih =>
    by_cases h : t.id ∈ ids
    · simpa [addLoop, h] using ih stored ids n hx
    · simpa [addLoop, h] using
        ih (stored ++ [t]) (insert t.id ids) (n + 1) (Finset.mem_insert_of_mem hx)

/-- After the add loop every processed tick's id is recorded. -/
theorem addLoop_mem_ids (l : List Tick) (stored : List Tick)
    (ids : Finset String) (n : ℕ) :
    ∀ t ∈ l, t.id ∈ (addLoop l stored ids n).2.1 := by
  induction l generalizing stored ids n with
  | nil => intro t ht; cases ht
  | cons u ts ih =>
    intro t ht
    rcases List.mem_cons.mp ht with rfl | hmem
    · by_cases h : t.id ∈ ids
      · simpa [addLoop, h] using addLoop_ids_mono ts stored ids n h
      · simpa [addLoop, h] using
          addLoop_ids_mono ts (stored ++ [t]) (insert t.id ids) (n + 1)
            (Finset.mem_insert_self t.id ids)
    · by_cases h : u.id ∈ ids
      · simpa [addLoop, h] using ih stored ids n t hmem
      · simpa [addLoop, h] using ih (stored ++ [u]) (insert u.id ids) (n + 1) t hmem

/-- When every incoming id is already recorded the add loop is inert. -/
theorem addLoop_of_all_mem (l : List Tick) (stored : List Tick)
    (ids : Finset String) (h : ∀ t ∈ l, t.id ∈ ids) :
    addLoop l stored ids 0 = (stored, ids, 0) := by
  induction l with
  | nil => rfl
  | cons t ts ih =>
    have ht : t.id ∈ ids := h t (List.mem_cons_self t ts)
    rw [addLoop, if_pos ht]
    exact ih (fun u hu => h u (List.mem_cons_of_mem t hu))

/-- C5 counterexample: with `max_ticks_per_topic = 1`, adding the same
two-tick list twice returns `new_count = 1` from the second call, not 0 —
the first call's pruning evicted `tickOne` and removed its id from the
dedup set, so the second call re-adds it. -/
theorem C5_counterexample_second_add_nonzero :
    (((TickStore.empty 1).add_ticks "x" [tickOne, tickTwo]).1.add_ticks
        "x" [tickOne, tickTwo]).2 = 1 ∧ (1 : ℕ) ≠ 0 := by
  refine ⟨by decide, by decide⟩

/-- C5 amended: when the first `add_ticks` does not prune (its post-insert
tick count stays within `max_ticks_per_topic`), a second call with the same
list returns `new_count = 0` and leaves the store state exactly as it was
after the first call. -/
theorem C5_add_ticks_idempotent_without_prune (s : TickStore) (topic : String)
    (l : List Tick)
    (h : (addLoop l (s.ticks topic) (s.tick_ids topic) 0).1.length ≤
      s.max_ticks_per_topic) :
    (s.add_ticks topic l).1.add_ticks topic l = ((s.add_ticks topic l).1, 0) := by
  rw [add_ticks_def s topic l, pruneState_of_le _ _ _ h]
  rw [add_ticks_def]
  dsimp only
  rw [updateMap_same, updateMap_same]
  rw [addLoop_of_all_mem l _ _ (addLoop_mem_ids l (s.ticks topic) (s.tick_ids topic) 0)]
  rw [pruneState_of_le _ _ _ h]
  simp [updateMap_idem]

/-- C5 witness: the amended theorem applied to an empty store with room for
ten ticks, where adding two ticks does not prune. -/
theorem C5_add_ticks_idempotent_without_prune_witness :
    (addLoop [tickOne, tickTwo] ((TickStore.empty 10).ticks "x")
        ((TickStore.empty 10).tick_ids "x") 0).1.length ≤
      (TickStore.empty 10).max_ticks_per_topic ∧
    ((TickStore.empty 10).add_ticks "x" [tickOne, tickTwo]).1.add_ticks
        "x" [tickOne, tickTwo] =
      (((TickStore.empty 10).add_ticks "x" [tickOne, tickTwo]).1, 0) :=
  ⟨by decide,
    C5_add_ticks_idempotent_without_prune (TickStore.empty 10) "x"
      [tickOne, tickTwo] (by decide)⟩

/-- Update at one key leaves other keys unchanged. -/
theorem updateMap_ne {α : Type} (f : String → α) (k v : _) {x : String}
    (h : x ≠ k) : updateMap f k v x = f x := by
  simp [updateMap, h]

/-- Consistency predicate on a `TickStore`: for every topic the stored tick
list carries pairwise-distinct ids, and the auxiliary dedup id set holds
exactly the ids of the stored ticks. -/
def TickInv (s : TickStore) : Prop :=
  ∀ topic, ((s.ticks topic).map Tick.id).Nodup ∧
    s.tick_ids topic = ((s.ticks topic).map Tick.id).toFinset

/-- The add loop preserves the per-topic consistency pair. -/
theorem addLoop_inv (l : List Tick) :
    ∀ (stored : List Tick) (ids : Finset String) (n : ℕ),
      (stored.map Tick.id).Nodup → ids = (stored.map Tick.id).toFinset →
      ((addLoop l stored ids n).1.map Tick.id).Nodup ∧
        (addLoop l stored ids n).2.1 =
          ((addLoop l stored ids n).1.map Tick.id).toFinset := by
  induction l with
  | nil => intro stored ids n hnd hids; exact ⟨hnd, hids⟩
  | cons t ts ih =>
    intro stored ids n hnd hids
    by_cases h : t.id ∈ ids
    · rw [addLoop, if_pos h]
      exact ih stored ids n hnd hids
    · rw [addLoop, if_neg h]
      have hnotin : t.id ∉ stored.map Tick.id := by
        intro hmem
        exact h (hids ▸ List.mem_toFinset.mpr hmem)
      refine ih (stored ++ [t]) (insert t.id ids) (n + 1) ?_ ?_
      · simp [List.nodup_append, hnd, hnotin]
      · rw [hids]
        ext x
        simp [or_comm]

/-- The pruning step preserves the per-topic consistency pair. -/
theorem pruneState_inv (maxT : ℕ) (lst : List Tick) (ids : Finset String)
    (hnd : (lst.map Tick.id).Nodup) (hids : ids = (lst.map Tick.id).toFinset) :
    ((pruneState maxT lst ids).1.map Tick.id).Nodup ∧
      (pruneState maxT lst ids).2 =
        ((pruneState maxT lst ids).1.map Tick.id).toFinset := by
  unfold pruneState
  by_cases h : maxT < lst.length
  · rw [if_pos h]
    refine ⟨?_, rfl⟩
    have hperm : List.Perm ((lst.insertionSort tickGE).map Tick.id)
        (lst.map Tick.id) := (List.perm_insertionSort tickGE lst).map Tick.id
    have hnd2 : ((lst.insertionSort tickGE).map Tick.id).Nodup :=
      (hperm.nodup_iff).mpr hnd
    have hsub : List.Sublist
        (((lst.insertionSort tickGE).take maxT).map Tick.id)
        ((lst.insertionSort tickGE).map Tick.id) :=
      (List.take_sublist maxT _).map Tick.id
    exact hnd2.sublist hsub
  · rw [if_neg h]
    exact ⟨hnd, hids⟩

/-- `add_ticks` preserves the consistency predicate (pruning included). -/
theorem tickInv_add (s : TickStore) (topic : String) (l : List Tick)
    (h : TickInv s) : TickInv (s.add_ticks topic l).1 := by
  intro tp
  rw [add_ticks_def]
  dsimp only
  by_cases htp : tp = topic
  · subst htp
    rw [updateMap_same, updateMap_same]
    exact pruneState_inv _ _ _ (addLoop_inv l _ _ 0 (h tp).1 (h tp).2).1
      (addLoop_inv l _ _ 0 (h tp).1 (h tp).2).2
  · rw [updateMap_ne _ _ _ htp, updateMap_ne _ _ _ htp]
    exact h tp

/-- `clear_topic` preserves the consistency predicate. -/
theorem tickInv_clear (s : TickStore) (topic : String) (h : TickInv s) :
    TickInv (s.clear_topic topic) := by
  intro tp
  unfold TickStore.clear_topic
  dsimp only
  by_cases htp : tp = topic
  · subst htp
    rw [updateMap_same, updateMap_same]
    simp
  · rw [updateMap_ne _ _ _ htp, updateMap_ne _ _ _ htp]
    exact h tp

/-- A mutating `TickStore` operation: one `add_ticks` or one
`clear_topic` call. -/
inductive TickOp where
  | addOp (topic : String) (ticks : List Tick) : TickOp
  | clearOp (topic : String) : TickOp

/-- Apply one mutating operation to the store. -/
def applyOp (s : TickStore) : TickOp → TickStore
  | .addOp topic ticks => (s.add_ticks topic ticks).1
  | .clearOp topic => s.clear_topic topic

/-- A fresh store satisfies the consistency predicate. -/
theorem tickInv_empty (m : ℕ) : TickInv (TickStore.empty m) :=
  fun _ => ⟨List.nodup_nil, by simp [TickStore.empty]⟩

/-- C10: after any sequence of `add_ticks` and `clear_topic` operations on
a fresh store, every topic's tick list has pairwise-distinct ids and the
dedup id set holds exactly the ids of the currently stored ticks — the
consistency predicate is maintained through every operation, the pruning
path included. -/
theorem C10_tickstore_invariant (m : ℕ) (ops : List TickOp) :
    TickInv (ops.foldl applyOp (TickStore.empty m)) := by
  suffices hstep : ∀ (s : TickStore), TickInv s → TickInv (ops.foldl applyOp s) from
    hstep _ (tickInv_empty m)
  induction ops with
  | nil => intro s hs; exact hs
  | cons op ops ih =>
    intro s hs
    rw [List.foldl_cons]
    refine ih _ ?_
    cases op with
    | addOp topic ticks => exact tickInv_add s topic ticks hs
    | clearOp topic => exact tickInv_clear s topic hs

/-- Every configured resolution width is positive. -/
theorem RESOLUTION_MAP_lookup_pos {res : String} {r : ℚ}
    (h : RESOLUTION_MAP.lookup res = some r) : 0 < r := by
  obtain ⟨l₁, l₂, hl, -⟩ := List.lookup_eq_some_iff.mp h
  have hmem : (res, r) ∈ RESOLUTION_MAP := by
    rw [hl]
    exact List.mem_append_right _ (List.mem_cons_self _ _)
  have hall : ∀ p ∈ RESOLUTION_MAP, (0 : ℚ) < p.2 := by decide
  exact hall _ hmem

/-- Closed form of the backward bar loop: the i-th emitted bar covers
`[E - (i+1)·r, E - i·r)`. -/
theorem generateBarsGo_closed (a : GrokAdapter) (s : TickStore)
    (topic res : String) (r : ℚ) (flag : Bool) :
    ∀ (n : ℕ) (E : ℚ),
      generateBarsGo a s topic res r flag n E =
        (List.range n).map (fun (i : ℕ) =>
          generate_bar a s topic (E - ((i : ℚ) + 1) * r) (E - (i : ℚ) * r) res flag) := by
  intro n
  induction n with
  | zero => intro E; rfl
  | succ n ih =>
    intro E
    rw [generateBarsGo, ih (E - r), List.range_succ_eq_map, List.map_cons,
      List.map_map]
    refine congrArg₂ List.cons ?_ (List.map_congr_left ?_)
    · norm_num
    · intro i _
      have h1 : E - r - ((i : ℚ) + 1) * r = E - (((i + 1 : ℕ) : ℚ) + 1) * r := by
        push_cast
        ring
      have h2 : E - r - (i : ℚ) * r = E - ((i + 1 : ℕ) : ℚ) * r := by
        push_cast
        ring
      simp only [Function.comp]
      rw [h1, h2]

/-- C2: for a supported resolution, `generate_bars` floors the supplied end
instant to the resolution boundary and returns exactly `limit` bars whose
half-open windows walk backward consecutively without gaps or overlaps:
the i-th bar (0 = most recent) ends at `(⌊end_time / r⌋ - i) · r`, every
bar satisfies `stop - start = r`, every bar start is an integer multiple of
`r` (alignment), consecutive bars abut, and the list is ordered most recent
first (strictly decreasing bar ends). -/
theorem C2_generate_bars_windows (a : GrokAdapter) (s : TickStore)
    (topic resolution : String) (limit : ℕ) (flag : Bool) (end_time : ℚ)
    (r : ℚ) (h : RESOLUTION_MAP.lookup resolution = some r) :
    ∃ bars : List Bar,
      generate_bars a s topic resolution limit flag end_time = some bars ∧
      bars.length = limit ∧
      (∀ (i : ℕ) (hi : i < bars.length),
        (bars.get ⟨i, hi⟩).stop = (((⌊end_time / r⌋ : ℤ) : ℚ) - (i : ℚ)) * r ∧
        (bars.get ⟨i, hi⟩).stop - (bars.get ⟨i, hi⟩).start = r ∧
        ∃ k : ℤ, (bars.get ⟨i, hi⟩).start = (k : ℚ) * r) ∧
      (∀ (i : ℕ) (hi : i < bars.length) (hi1 : i + 1 < bars.length),
        (bars.get ⟨i + 1, hi1⟩).stop = (bars.get ⟨i, hi⟩).start) ∧
      (∀ (i j : ℕ) (hi : i < bars.length) (hj : j < bars.length),
        i < j → (bars.get ⟨j, hj⟩).stop < (bars.get ⟨i, hi⟩).stop) := by
  have hr : 0 < r := RESOLUTION_MAP_lookup_pos h
  refine ⟨(List.range limit).map (fun (i : ℕ) =>
      generate_bar a s topic
        (((⌊end_time / r⌋ : ℤ) : ℚ) * r - ((i : ℚ) + 1) * r)
        (((⌊end_time / r⌋ : ℤ) : ℚ) * r - (i : ℚ) * r) resolution flag),
    ?_, ?_, ?_, ?_, ?_⟩
  · unfold generate_bars
    rw [h]
    dsimp only
    rw [generateBarsGo_closed]
  · simp
  · intro i hi
    simp only [List.get_eq_getElem, List.getElem_map, List.getElem_range]
    unfold generate_bar
    refine ⟨by ring, by ring, ⟨⌊end_time / r⌋ - (i : ℤ) - 1, ?_⟩⟩
    push_cast
    ring
  · intro i hi hi1
    simp only [List.get_eq_getElem, List.getElem_map, List.getElem_range]
    unfold generate_bar
    push_cast
    ring
  · intro i j hi hj hij
    simp only [List.get_eq_getElem, List.getElem_map, List.getElem_range]
    unfold generate_bar
    have hq : (i : ℚ) < (j : ℚ) := by exact_mod_cast hij
    nlinarith [hr, hq]

/-- C2 witness: the theorem applied at the one-minute resolution. -/
theorem C2_generate_bars_windows_witness :
    RESOLUTION_MAP.lookup "1m" = some 60 ∧
    ∃ bars : List Bar,
      generate_bars noClientAdapter (TickStore.empty 10) "tsla" "1m" 3 false 125
          = some bars ∧
      bars.length = 3 ∧
      (∀ (i : ℕ) (hi : i < bars.length),
        (bars.get ⟨i, hi⟩).stop = (((⌊(125 : ℚ) / 60⌋ : ℤ) : ℚ) - (i : ℚ)) * 60 ∧
        (bars.get ⟨i, hi⟩).stop - (bars.get ⟨i, hi⟩).start = 60 ∧
        ∃ k : ℤ, (bars.get ⟨i, hi⟩).start = (k : ℚ) * 60) ∧
      (∀ (i : ℕ) (hi : i < bars.length) (hi1 : i + 1 < bars.length),
        (bars.get ⟨i + 1, hi1⟩).stop = (bars.get ⟨i, hi⟩).start) ∧
      (∀ (i j : ℕ) (hi : i < bars.length) (hj : j < bars.length),
        i < j → (bars.get ⟨j, hj⟩).stop < (bars.get ⟨i, hi⟩).stop) :=
  ⟨by decide,
    C2_generate_bars_windows noClientAdapter (TickStore.empty 10) "tsla" "1m" 3
      false 125 60 (by decide)⟩

/-- Spacing property: in a grant-time list, any grant and the one `n`
positions later are at least `w` apart.  For a monotone list this is
exactly "at most `n` grants in any half-open window of length `w`". -/
def spaced (n : ℕ) (w : ℚ) (l : List ℚ) : Prop :=
  ∀ i : ℕ, i + n < l.length → l.getD i 0 + w ≤ l.getD (i + n) 0

/-- In-bounds `getD` is `getElem`. -/
theorem getD_eq_getElem_q (l : List ℚ) (i : ℕ) (h : i < l.length) :
    l.getD i 0 = l[i] := by
  rw [List.getD_eq_getElem?_getD, List.getElem?_eq_getElem h]
  rfl

/-- `getD` on the left part of an append. -/
theorem getD_append_left_q (l₁ l₂ : List ℚ) (i : ℕ) (h : i < l₁.length) :
    (l₁ ++ l₂).getD i 0 = l₁.getD i 0 := by
  rw [List.getD_eq_getElem?_getD, List.getD_eq_getElem?_getD,
    List.getElem?_append_left h]

/-- `getD` at the seam of an append with a singleton. -/
theorem getD_append_self_q (l : List ℚ) (g : ℚ) :
    (l ++ [g]).getD l.length 0 = g := by
  rw [List.getD_eq_getElem?_getD, List.getElem?_append_right (le_refl _)]
  simp

/-- Re-pruning at a later instant subsumes an earlier pruning. -/
theorem filter_window_mono (w : ℚ) {clock now : ℚ} (h : clock ≤ now)
    (prev : List ℚ) :
    (prev.filter (fun t => decide (clock - t < w))).filter
        (fun t => decide (now - t < w)) =
      prev.filter (fun t => decide (now - t < w)) := by
  rw [List.filter_filter]
  apply List.filter_congr
  intro t _
  by_cases hc : now - t < w
  · have hc2 : clock - t < w := by linarith
    simp [hc, hc2]
  · simp [hc]

/-- A list with a member failing the predicate strictly shrinks under
`filter`. -/
theorem length_filter_lt_q {p : ℚ → Bool} {l : List ℚ} {x : ℚ}
    (hx : x ∈ l) (hpx : ¬ p x = true) : (l.filter p).length < l.length := by
  have hle : l.countP p ≤ l.length := List.countP_le_length p
  have hne : l.countP p ≠ l.length := fun hc => hpx (List.countP_eq_length.mp hc x hx)
  have := List.countP_eq_length_filter (p := p) l
  omega

/-- In a weakly increasing list, every element from position `i` on is at
least the element at position `i`. -/
theorem sorted_le_of_mem_drop {prev : List ℚ} (hsort : prev.Pairwise (· ≤ ·))
    {i : ℕ} (hi : i < prev.length) :
    ∀ z ∈ prev.drop i, prev.getD i 0 ≤ z := by
  intro z hz
  have hdrop : prev.drop i = prev[i] :: prev.drop (i + 1) :=
    List.drop_eq_getElem_cons hi
  rw [getD_eq_getElem_q prev i hi]
  rw [hdrop] at hz
  rcases List.mem_cons.mp hz with rfl | hmem
  · exact le_refl _
  · have hpair : (prev.drop i).Pairwise (· ≤ ·) :=
      hsort.sublist (List.drop_sublist i prev)
    rw [hdrop] at hpair
    exact (List.pairwise_cons.mp hpair).1 z hmem

/-- Counting argument: if everything from position `i` on satisfies `p` and
`i + n` is the length, at least `n` elements satisfy `p`. -/
theorem countP_ge_of_drop {prev : List ℚ} {i n : ℕ} (hi : i + n = prev.length)
    (p : ℚ → Bool) (hall : ∀ z ∈ prev.drop i, p z = true) :
    n ≤ prev.countP p := by
  have hsplit : prev.countP p =
      (prev.take i).countP p + (prev.drop i).countP p := by
    conv_lhs => rw [← List.take_append_drop i prev]
    exact List.countP_append _ _ _
  have hdrop : (prev.drop i).countP p = (prev.drop i).length :=
    List.countP_eq_length.mpr hall
  have hlen : (prev.drop i).length = n := by
    rw [List.length_drop]
    omega
  omega

/-- One sliding-window acquire, specified against the full grant history
`prev` (weakly increasing): the grant never happens before the call; the
new recorded-timestamp list is exactly the in-window suffix of the history
extended by the grant; the recorded list stays within the budget; and the
grant is at least `w` after the grant `n` positions from the end of the
history. -/
theorem slidingStep_spec (n : ℕ) (w : ℚ) (hn : 1 ≤ n) (hw : 0 < w)
    (prev : List ℚ) (now : ℚ) (st : List ℚ)
    (hsort : prev.Pairwise (· ≤ ·))
    (hst : st.filter (fun t => decide (now - t < w)) =
      prev.filter (fun t => decide (now - t < w)))
    (hlen : st.length ≤ n) :
    now ≤ (slidingStep n w now st).1 ∧
    (slidingStep n w now st).2 =
      (prev ++ [(slidingStep n w now st).1]).filter
        (fun t => decide ((slidingStep n w now st).1 - t < w)) ∧
    (slidingStep n w now st).2.length ≤ n ∧
    ∀ i : ℕ, i + n = prev.length →
      prev.getD i 0 + w ≤ (slidingStep n w now st).1 := by
  have hplen : (st.filter (fun t => decide (now - t < w))).length ≤ n :=
    le_trans (List.length_filter_le _ _) hlen
  have hplen2 : (prev.filter (fun t => decide (now - t < w))).length ≤ n := by
    rw [← hst]; exact hplen
  unfold slidingStep
  rw [hst]
  by_cases hb : n ≤ (prev.filter (fun t => decide (now - t < w))).length
  · -- at the limit: wait until the oldest in-window grant expires
    rw [if_pos hb]
    have hne : prev.filter (fun t => decide (now - t < w)) ≠ [] := by
      intro hnil
      rw [hnil] at hb
      simp at hb
      omega
    obtain ⟨oldest, hold⟩ :
        ∃ a, (prev.filter (fun t => decide (now - t < w))).min? = some a := by
      cases hmq : (prev.filter (fun t => decide (now - t < w))).min? with
      | none => exact absurd (List.min?_eq_none_iff.mp hmq) hne
      | some a => exact ⟨a, rfl⟩
    rw [hold]
    dsimp only
    have hmem : oldest ∈ prev.filter (fun t => decide (now - t < w)) :=
      List.min?_mem (fun a b => min_choice a b) hold
    have holdw : now - oldest < w := by
      have := (List.mem_filter.mp hmem).2
      exact of_decide_eq_true this
    have hwait : 0 < w - (now - oldest) := by linarith
    rw [if_pos hwait]
    dsimp only
    have hgold : now + (w - (now - oldest)) = oldest + w := by ring
    have holdmem : oldest ∈ prev := (List.mem_filter.mp hmem).1
    have hminle : ∀ b ∈ prev.filter (fun t => decide (now - t < w)), oldest ≤ b :=
      fun b hb2 =>
        (List.le_min?_iff (fun a b c => le_min_iff) hold).mp (le_refl oldest) b hb2
    refine ⟨by linarith, ?_, ?_, ?_⟩
    · -- shape of the new recorded list
      rw [filter_window_mono w (by linarith : now ≤ now + (w - (now - oldest))) prev]
      rw [List.filter_append]
      have hself : ([now + (w - (now - oldest))].filter
          (fun t => decide (now + (w - (now - oldest)) - t < w))) =
            [now + (w - (now - oldest))] := by
        simp
        linarith
      rw [hself]
    · -- budget is kept: the oldest is pruned before the grant is recorded
      have hdrop : ((prev.filter (fun t => decide (now - t < w))).filter
          (fun t => decide (now + (w - (now - oldest)) - t < w))).length <
            (prev.filter (fun t => decide (now - t < w))).length := by
        apply length_filter_lt_q hmem
        simp [hgold]
      rw [List.length_append]
      simp only [List.length_singleton]
      omega
    · -- spacing for the freshly created pair
      intro i hi
      rw [hgold]
      have hile : i < prev.length := by omega
      by_contra hcon
      push_neg at hcon
      have hxo : oldest < prev.getD i 0 := by linarith
      have hallp : ∀ z ∈ prev.drop i, decide (now - z < w) = true := by
        intro z hz
        have hxz := sorted_le_of_mem_drop hsort hile z hz
        rw [decide_eq_true_eq]
        linarith
      have hcount : n ≤ prev.countP (fun t => decide (now - t < w)) :=
        countP_ge_of_drop hi _ hallp
      have htake : oldest ∈ prev.take i := by
        have hsplit : oldest ∈ prev.take i ++ prev.drop i := by
          rw [List.take_append_drop]; exact holdmem
        rcases List.mem_append.mp hsplit with h | h
        · exact h
        · exact absurd (sorted_le_of_mem_drop hsort hile oldest h) (by linarith)
      have hpos : 0 < (prev.take i).countP (fun t => decide (now - t < w)) :=
        List.countP_pos_iff.mpr ⟨oldest, htake, (List.mem_filter.mp hmem).2⟩
      have hsplitc : prev.countP (fun t => decide (now - t < w)) =
          (prev.take i).countP (fun t => decide (now - t < w)) +
          (prev.drop i).countP (fun t => decide (now - t < w)) := by
        conv_lhs => rw [← List.take_append_drop i prev]
        exact List.countP_append _ _ _
      have hdropc : (prev.drop i).countP (fun t => decide (now - t < w)) =
          (prev.drop i).length := List.countP_eq_length.mpr hallp
      have hdlen : (prev.drop i).length = n := by
        rw [List.length_drop]; omega
      have hcl : prev.countP (fun t => decide (now - t < w)) =
          (prev.filter (fun t => decide (now - t < w))).length :=
        List.countP_eq_length_filter _ prev
      omega
  · -- under the limit: grant immediately
    rw [if_neg hb]
    dsimp only
    refine ⟨le_refl now, ?_, ?_, ?_⟩
    · rw [List.filter_append]
      have hself : ([now].filter (fun t => decide (now - t < w))) = [now] := by
        simp
        linarith
      rw [hself]
    · rw [List.length_append]
      simp only [List.length_singleton]
      omega
    · intro i hi
      by_contra hcon
      push_neg at hcon
      have hile : i < prev.length := by omega
      have hallp : ∀ z ∈ prev.drop i, decide (now - z < w) = true := by
        intro z hz
        have hxz := sorted_le_of_mem_drop hsort hile z hz
        rw [decide_eq_true_eq]
        linarith
      have hcount : n ≤ prev.countP (fun t => decide (now - t < w)) :=
        countP_ge_of_drop hi _ hallp
      have hcl : prev.countP (fun t => decide (now - t < w)) =
          (prev.filter (fun t => decide (now - t < w))).length :=
        List.countP_eq_length_filter _ prev
      omega

/-- For a weakly increasing grant list, the spacing property bounds the
number of grants inside any half-open window `[a, a + w)` by `n`. -/
theorem spaced_window_count {gs : List ℚ} {n : ℕ} {w : ℚ}
    (hmono : gs.Pairwise (· ≤ ·)) (hsp : spaced n w gs) (a : ℚ) :
    ((gs.filter (fun g => decide (a ≤ g ∧ g < a + w))).length) ≤ n := by
  by_contra hcon
  push_neg at hcon
  have hsub : List.Sublist (gs.filter (fun g => decide (a ≤ g ∧ g < a + w))) gs :=
    List.filter_sublist gs
  rw [List.sublist_iff_exists_fin_orderEmbedding_get_eq] at hsub
  obtain ⟨emb, hemb⟩ := hsub
  have h0 : 0 < (gs.filter (fun g => decide (a ≤ g ∧ g < a + w))).length := by omega
  have hstep : ∀ (k : ℕ)
      (hk : k < (gs.filter (fun g => decide (a ≤ g ∧ g < a + w))).length),
      ((emb ⟨0, h0⟩ : Fin gs.length) : ℕ) + k ≤ ((emb ⟨k, hk⟩ : Fin gs.length) : ℕ) := by
    intro k
    induction k with
    | zero => intro hk; simp
    | succ k ihk =>
      intro hk
      have hk2 : k < (gs.filter (fun g => decide (a ≤ g ∧ g < a + w))).length := by
        omega
      have hlt : emb ⟨k, hk2⟩ < emb ⟨k + 1, hk⟩ :=
        emb.strictMono (Fin.mk_lt_mk.mpr (by omega))
      have hlt2 : ((emb ⟨k, hk2⟩ : Fin gs.length) : ℕ) <
          ((emb ⟨k + 1, hk⟩ : Fin gs.length) : ℕ) := hlt
      have := ihk hk2
      omega
  have hbound : ((emb ⟨0, h0⟩ : Fin gs.length) : ℕ) + n < gs.length :=
    lt_of_le_of_lt (hstep n hcon) (emb ⟨n, hcon⟩).isLt
  have hsp0 := hsp ((emb ⟨0, h0⟩ : Fin gs.length) : ℕ) hbound
  have hmemf : ∀ (k : ℕ)
      (hk : k < (gs.filter (fun g => decide (a ≤ g ∧ g < a + w))).length),
      a ≤ (gs.filter (fun g => decide (a ≤ g ∧ g < a + w))).get ⟨k, hk⟩ ∧
        (gs.filter (fun g => decide (a ≤ g ∧ g < a + w))).get ⟨k, hk⟩ < a + w := by
    intro k hk
    have hm := List.get_mem (gs.filter (fun g => decide (a ≤ g ∧ g < a + w))) k hk
    exact of_decide_eq_true (List.mem_filter.mp hm).2
  have hg0 : gs.getD ((emb ⟨0, h0⟩ : Fin gs.length) : ℕ) 0 =
      (gs.filter (fun g => decide (a ≤ g ∧ g < a + w))).get ⟨0, h0⟩ := by
    rw [getD_eq_getElem_q _ _ (emb ⟨0, h0⟩).isLt, hemb ⟨0, h0⟩]
    simp
  have hgN : gs.getD ((emb ⟨n, hcon⟩ : Fin gs.length) : ℕ) 0 =
      (gs.filter (fun g => decide (a ≤ g ∧ g < a + w))).get ⟨n, hcon⟩ := by
    rw [getD_eq_getElem_q _ _ (emb ⟨n, hcon⟩).isLt, hemb ⟨n, hcon⟩]
    simp
  have hmid : gs.getD (((emb ⟨0, h0⟩ : Fin gs.length) : ℕ) + n) 0 ≤
      gs.getD ((emb ⟨n, hcon⟩ : Fin gs.length) : ℕ) 0 := by
    rcases eq_or_lt_of_le (hstep n hcon) with heq | hlt
    · rw [heq]
    · rw [getD_eq_getElem_q _ _ hbound, getD_eq_getElem_q _ _ (emb ⟨n, hcon⟩).isLt]
      exact (List.pairwise_iff_getElem.mp hmono) _ _ hbound (emb ⟨n, hcon⟩).isLt hlt
  have hp0 := hmemf 0 h0
  have hpN := hmemf n hcon
  rw [hg0] at hsp0
  rw [hgN] at hmid
  linarith [hsp0, hmid, hp0.1, hpN.2]

/-- Trace invariant for a sequence of sliding-window acquires: starting
from a grant history `prev` (weakly increasing, all before `clock`, with
recorded state the in-window suffix of the history, within budget, and
`n`-spaced), the extended history stays weakly increasing and `n`-spaced. -/
theorem slidingRun_spec (n : ℕ) (w : ℚ) (hn : 1 ≤ n) (hw : 0 < w) :
    ∀ (reqs : List ℚ) (prev : List ℚ) (clock : ℚ) (st : List ℚ),
      prev.Pairwise (· ≤ ·) →
      (∀ t ∈ prev, t ≤ clock) →
      st = prev.filter (fun t => decide (clock - t < w)) →
      st.length ≤ n →
      spaced n w prev →
      (prev ++ slidingRun n w st clock reqs).Pairwise (· ≤ ·) ∧
        spaced n w (prev ++ slidingRun n w st clock reqs) := by
  intro reqs
  induction reqs with
  | nil =>
    intro prev clock st h1 h2 h3 h4 h5
    rw [slidingRun]
    rw [List.append_nil]
    exact ⟨h1, h5⟩
  | cons req rs ih =>
    intro prev clock st h1 h2 h3 h4 h5
    rw [slidingRun]
    have hclock_now : clock ≤ max req clock := le_max_right req clock
    have hstf : st.filter (fun t => decide (max req clock - t < w)) =
        prev.filter (fun t => decide (max req clock - t < w)) := by
      rw [h3]
      exact filter_window_mono w hclock_now prev
    have hbound : ∀ t ∈ prev, t ≤ max req clock :=
      fun t ht => le_trans (h2 t ht) hclock_now
    obtain ⟨hg1, hg2, hg3, hg4⟩ :=
      slidingStep_spec n w hn hw prev (max req clock) st h1 hstf h4
    have hprev2_sorted :
        (prev ++ [(slidingStep n w (max req clock) st).1]).Pairwise (· ≤ ·) := by
      rw [List.pairwise_append]
      refine ⟨h1, List.pairwise_singleton _ _, ?_⟩
      intro a ha b hb
      rw [List.mem_singleton] at hb
      subst hb
      exact le_trans (hbound a ha) hg1
    have hbound2 : ∀ t ∈ prev ++ [(slidingStep n w (max req clock) st).1],
        t ≤ (slidingStep n w (max req clock) st).1 := by
      intro t ht
      rcases List.mem_append.mp ht with h | h
      · exact le_trans (hbound t h) hg1
      · rw [List.mem_singleton] at h
        subst h
        exact le_refl _
    have hspaced2 : spaced n w (prev ++ [(slidingStep n w (max req clock) st).1]) := by
      intro i hi
      rw [List.length_append, List.length_singleton] at hi
      by_cases hcase : i + n < prev.length
      · rw [getD_append_left_q _ _ i (by omega), getD_append_left_q _ _ (i + n) hcase]
        exact h5 i hcase
      · have heq : i + n = prev.length := by omega
        rw [getD_append_left_q _ _ i (by omega), heq, getD_append_self_q]
        exact hg4 i heq
    have hrec := ih (prev ++ [(slidingStep n w (max req clock) st).1])
      (slidingStep n w (max req clock) st).1
      (slidingStep n w (max req clock) st).2
      hprev2_sorted hbound2 hg2 hg3 hspaced2
    rwa [List.append_assoc, List.singleton_append] at hrec

/-- C4: for a sliding-window category at `n` requests per `w` seconds
(`n ≥ 1`, `w > 0`), any sequence of `wait_if_needed` calls is granted at
most `n` times within any half-open interval `[a, a + w)`; and in the S4
scenario (`n = 3`, `w = 10`, acquires requested at `t = 0, 1, 2, 3`) the
first three calls are granted at their request instants without waiting
while the fourth sleeps until `t = 10`. -/
theorem C4_sliding_window_budget (n : ℕ) (w : ℚ) (hn : 1 ≤ n) (hw : 0 < w)
    (clock : ℚ) (reqs : List ℚ) :
    (∀ a : ℚ,
      ((slidingRun n w [] clock reqs).filter
          (fun g => decide (a ≤ g ∧ g < a + w))).length ≤ n) ∧
    slidingRun 3 10 [] 0 [0, 1, 2, 3] = [0, 1, 2, 10] := by
  constructor
  · intro a
    have h := slidingRun_spec n w hn hw reqs [] clock []
      List.Pairwise.nil (by simp) (by simp) (by simp)
      (fun i hi => absurd hi (by simp))
    rw [List.nil_append] at h
    exact spaced_window_count h.1 h.2 a
  · norm_num [slidingRun, slidingStep]

/-- C4 witness: the theorem applied at the S4 configuration. -/
theorem C4_sliding_window_budget_witness :
    1 ≤ 3 ∧ (0 : ℚ) < 10 ∧
    ((∀ a : ℚ,
      ((slidingRun 3 10 [] 0 [0, 1, 2, 3]).filter
          (fun g => decide (a ≤ g ∧ g < a + 10))).length ≤ 3) ∧
      slidingRun 3 10 [] 0 [0, 1, 2, 3] = [0, 1, 2, 10]) :=
  ⟨by norm_num, by norm_num,
    C4_sliding_window_budget 3 10 (by norm_num) (by norm_num) 0 [0, 1, 2, 3]⟩
